import Mathlib

/-!
Verification of the `umbral-pre` core (rust-umbral) against its specification.

The development shallowly embeds the code of `src/umbral-pre/src/curve.rs`,
`src/umbral-pre/src/hashing_ds.rs` and the KEM facade described by the spec.
Machine bytes are modelled as `Nat` values below 256, byte arrays as `List Nat`,
scalars as naturals below the group order, and curve points as an inductive
with an identity and affine coordinates.

Parts of the repository that are not present under `src/` (the `hashing.rs`
scalar digest, the `keys.rs`/`key_frag.rs` wrappers, the `pre.rs` facade, the
DEM, and the elliptic-curve backend used by `curve.rs`) are modelled from the
specification; each such definition carries a doc comment starting with
`Modelled from the spec:`.
-/

/-- Big-endian interpretation of a byte list as a natural number. -/
def beToNat (l : List Nat) : Nat :=
  l.foldl (fun a b => a * 256 + b) 0

/-- Big-endian encoding of a natural number into `k` bytes
(the `k` least significant base-256 digits, most significant first). -/
def beBytes : Nat → Nat → List Nat
  | 0, _ => []
  | k + 1, n => beBytes k (n / 256) ++ [n % 256]

/-- Fuel-driven modular exponentiation by squaring; with enough fuel it
computes `b ^ e % m`.  Used to model the backend's square-root computation
for the secp256k1 base field (`p ≡ 3 (mod 4)`). -/
def powMod : Nat → Nat → Nat → Nat → Nat
  | 0, _, _, m => 1 % m
  | fuel + 1, b, e, m =>
    if e = 0 then 1 % m
    else
      let r := powMod fuel (b * b % m) (e / 2) m
      if e % 2 = 1 then r * b % m else r

/-- The secp256k1 base field prime `p = 2^256 - 2^32 - 977`. -/
def secp_p : Nat :=
  115792089237316195423570985008687907853269984665640564039457584007908834671663

/-- The secp256k1 group (scalar field) order `q`. -/
def secp_q : Nat :=
  115792089237316195423570985008687907852837564279074904382605163141518161494337

/-- x-coordinate of the secp256k1 generator. -/
def secpGx : Nat :=
  55066263022277343669578718895168534326250603453777594175500187360389116729240

/-- y-coordinate of the secp256k1 generator (even). -/
def secpGy : Nat :=
  32670510020758816978083085130507043184471273380659243275938904335757337482424

/-- The deserialization error type of `traits.rs`.
Modelled from the spec: `ConstructionFailure` — byte array did not decode to a
valid entity (the only error kind named by the spec for `from_array`). -/
inductive DeserializationError where
  | ConstructionFailure
deriving DecidableEq, Repr

/-- `CurveScalar` (`curve.rs`, a newtype over the backend scalar): a field
element of the scalar field, canonically a natural number below `secp_q`. -/
abbrev CurveScalar := {n : Nat // n < secp_q}

/-- `CurveScalar::to_array` (`curve.rs` line 84, backend `to_bytes`):
32-byte big-endian encoding of the canonical value. -/
def CurveScalar.to_array (s : CurveScalar) : List Nat :=
  beBytes 32 s.val

/-- `CurveScalar::from_array` (`curve.rs` lines 89–95).
Modelled from the spec: the backend `Scalar::from_repr` accepts a 32-byte
big-endian value exactly when it is `< q` ("`< q` on deserialization"). -/
def CurveScalar.from_array (arr : List Nat) : Except DeserializationError CurveScalar :=
  if h : beToNat arr < secp_q then .ok ⟨beToNat arr, h⟩
  else .error .ConstructionFailure

/-- `CurvePoint` (`curve.rs`, a newtype over the backend projective point):
either the identity or an affine point with coordinates. -/
inductive CurvePoint where
  | identity
  | affine (x y : Nat)
deriving DecidableEq, Repr

/-- The SEC1 encoding produced by the backend's `to_encoded_point(true)`:
the identity encodes as the single byte `0x00`; an affine point encodes as
a parity prefix `0x02`/`0x03` followed by the 32-byte big-endian x-coordinate.
Modelled from the spec: the backend is an opaque SEC1 provider; "Compressed
point encoding is the 33-byte SEC1 form with a 0x02/0x03 prefix". -/
def CurvePoint.to_encoded_point_bytes : CurvePoint → List Nat
  | .identity => [0]
  | .affine x y => (2 + y % 2) :: beBytes 32 x

/-- `CurvePoint::to_compressed_array` (`curve.rs` lines 128–133):
`GenericArray::from_slice` requires exactly 33 bytes and panics otherwise;
the panic is modelled as `none`. -/
def CurvePoint.to_compressed_array (P : CurvePoint) : Option (List Nat) :=
  let b := P.to_encoded_point_bytes
  if b.length = 33 then some b else none

/-- `CurvePoint::to_array` (`curve.rs` lines 179–183), with the partiality of
`to_compressed_array` made explicit. -/
def CurvePoint.to_array_opt (P : CurvePoint) : Option (List Nat) :=
  P.to_compressed_array

/-- `CurvePoint::from_compressed_array` (`curve.rs` lines 120–126).
Modelled from the spec: the backend parses the SEC1 tag (only `0x02`/`0x03`
fits a 33-byte input), requires the x-coordinate below the field prime,
recovers the y-coordinate as the square root `(x³+7)^((p+1)/4) mod p`
(valid since `p ≡ 3 (mod 4)`), selects the root with the prefix's parity and
rejects the input when no on-curve point with that parity exists.  The
identity has only the 1-byte SEC1 encoding, so it is never produced. -/
def CurvePoint.from_compressed_array (arr : List Nat) : Option CurvePoint :=
  match arr with
  | [] => none
  | tag :: rest =>
    if tag = 2 ∨ tag = 3 then
      let x := beToNat rest
      if x < secp_p then
        let c := (x ^ 3 + 7) % secp_p
        let y0 := powMod 300 c ((secp_p + 1) / 4) secp_p
        let y := if y0 % 2 = tag % 2 then y0 else (secp_p - y0) % secp_p
        if y * y % secp_p = c ∧ y % 2 = tag % 2 then some (.affine x y) else none
      else none
    else none

/-- `CurvePoint::from_array` (`curve.rs` lines 185–189):
`from_compressed_array(arr).ok_or(ConstructionFailure)`. -/
def CurvePoint.from_array (arr : List Nat) : Except DeserializationError CurvePoint :=
  match CurvePoint.from_compressed_array arr with
  | some P => .ok P
  | none => .error .ConstructionFailure

/-- The spec's notion of a valid wire encoding of a curve point: a parity
prefix `0x02`/`0x03` matching the y-coordinate followed by the big-endian
x-coordinate, for an affine point on `y² = x³ + 7` with reduced coordinates. -/
def ValidPointEncoding (arr : List Nat) (P : CurvePoint) : Prop :=
  ∃ x y, P = .affine x y ∧ x < secp_p ∧ y < secp_p ∧
    y * y % secp_p = (x ^ 3 + 7) % secp_p ∧
    arr = (2 + y % 2) :: beBytes 32 x

/-- Soundness statement for point deserialization at one input:
a decoded point is a valid non-identity point with exactly these bytes as its
compressed encoding, and a failure is a `ConstructionFailure`. -/
def PointDecodeSound (arr : List Nat) : Prop :=
  match CurvePoint.from_array arr with
  | .ok P => ValidPointEncoding arr P ∧ P ≠ .identity
  | .error e => e = .ConstructionFailure

/-- The round-trip `deserialize(serialize(P))` for a point, with the
serialization's partiality at the identity made explicit. -/
def point_roundtrip (P : CurvePoint) : Option (Except DeserializationError CurvePoint) :=
  (CurvePoint.to_array_opt P).map CurvePoint.from_array

deriving instance DecidableEq for Except

/-- A 4-byte big-endian length, used to length-prefix domain separation tags.
Modelled from the spec: the digest absorbs "a fixed length-prefixed DST"
(the spec's length fields are 4-byte big-endian). -/
def u32be (n : Nat) : List Nat :=
  beBytes 4 n

/-- A 33-byte compressed-point byte string, the form in which `chain_point`
absorbs a point (`point.to_array()`). -/
abbrev PointBytes := {l : List Nat // l.length = 33}

/-- `KeyFragID` (`key_frag.rs`).
Modelled from the spec: "`KeyFragID` — 32 random bytes"; its serialization is
the 32 bytes themselves. -/
abbrev KeyFragID := {l : List Nat // l.length = 32}

/-- `PublicKey` (`keys.rs`).
Modelled from the spec: a public key serializes as its curve point,
33 compressed bytes. -/
abbrev PublicKey := PointBytes

/-- `ScalarDigest` (`hashing.rs`).
Modelled from the spec: a digest wrapper that absorbs tagged data and reduces
to a field scalar; modelled by the exact stream of absorbed bytes, with
`finalize` treated as an injective map of that stream (the random-oracle
idealization of the SHA-256-based digest). -/
structure ScalarDigest where
  absorbed : List Nat
deriving DecidableEq, Repr

/-- The idealized scalar-digest output: the absorbed stream itself, so that
scalar equality corresponds to absorbed-stream equality. -/
abbrev ModelScalar := List Nat

/-- `ScalarDigest::new_with_dst` (`hashing.rs`).
Modelled from the spec: absorbs the length-prefixed DST first. -/
def ScalarDigest.new_with_dst (dst : List Nat) : ScalarDigest :=
  ⟨u32be dst.length ++ dst⟩

/-- `ScalarDigest::chain_bytes`: absorbs raw bytes. -/
def ScalarDigest.chain_bytes (d : ScalarDigest) (b : List Nat) : ScalarDigest :=
  ⟨d.absorbed ++ b⟩

/-- `ScalarDigest::chain_point`: absorbs a point's compressed 33 bytes. -/
def ScalarDigest.chain_point (d : ScalarDigest) (p : PointBytes) : ScalarDigest :=
  d.chain_bytes p.val

/-- `ScalarDigest::chain_points`: absorbs a list of points in order. -/
def ScalarDigest.chain_points (d : ScalarDigest) (ps : List PointBytes) : ScalarDigest :=
  ps.foldl ScalarDigest.chain_point d

/-- `ScalarDigest::finalize`: the idealized digest output. -/
def ScalarDigest.finalize (d : ScalarDigest) : ModelScalar :=
  d.absorbed

/-- The ASCII bytes of the DST `"POLYNOMIAL_ARG"`. -/
def dstPolynomialArg : List Nat :=
  "POLYNOMIAL_ARG".data.map Char.toNat

/-- The ASCII bytes of the DST `"SHARED_SECRET"`. -/
def dstSharedSecret : List Nat :=
  "SHARED_SECRET".data.map Char.toNat

/-- The ASCII bytes of the DST `"CAPSULE_POINTS"`. -/
def dstCapsulePoints : List Nat :=
  "CAPSULE_POINTS".data.map Char.toNat

/-- The ASCII bytes of the DST `"CFRAG_VERIFICATION"`. -/
def dstCfragVerification : List Nat :=
  "CFRAG_VERIFICATION".data.map Char.toNat

/-- `hash_to_polynomial_arg` (`hashing_ds.rs` lines 14–26). -/
def hash_to_polynomial_arg (precursor pubkey dh_point : PointBytes)
    (kfrag_id : KeyFragID) : ModelScalar :=
  ((((ScalarDigest.new_with_dst dstPolynomialArg).chain_point
      precursor).chain_point pubkey).chain_point dh_point).chain_bytes
    kfrag_id.val |>.finalize

/-- `hash_to_shared_secret` (`hashing_ds.rs` lines 28–38). -/
def hash_to_shared_secret (precursor pubkey dh_point : PointBytes) : ModelScalar :=
  (((ScalarDigest.new_with_dst dstSharedSecret).chain_point
      precursor).chain_point pubkey).chain_point dh_point |>.finalize

/-- `hash_capsule_points` (`hashing_ds.rs` lines 40–45). -/
def hash_capsule_points (capsule_e capsule_v : PointBytes) : ModelScalar :=
  ((ScalarDigest.new_with_dst dstCapsulePoints).chain_point
      capsule_e).chain_point capsule_v |>.finalize

/-- `hash_to_cfrag_verification` (`hashing_ds.rs` lines 47–59). -/
def hash_to_cfrag_verification (points : List PointBytes)
    (metadata : Option (List Nat)) : ModelScalar :=
  let digest := (ScalarDigest.new_with_dst dstCfragVerification).chain_points points
  let digest :=
    match metadata with
    | some s => digest.chain_bytes s
    | none => digest
  digest.finalize

/-- `bool::to_array` (`traits.rs`).
Modelled from the spec: "Bytes boolean encoding: `0x01` for true, `0x00` for
false." -/
def boolToArray (b : Bool) : List Nat :=
  if b then [1] else [0]

/-- `kfrag_signature_message` (`hashing_ds.rs` lines 61–91), translated
extend-by-extend from the `Vec` construction. -/
def kfrag_signature_message (kfrag_id : KeyFragID) (commitment precursor : PointBytes)
    (maybe_delegating_pk maybe_receiving_pk : Option PublicKey) : List Nat :=
  let result : List Nat := []
  let result := result ++ kfrag_id.val
  let result := result ++ commitment.val
  let result := result ++ precursor.val
  let result :=
    match maybe_delegating_pk with
    | some delegating_pk => result ++ boolToArray true ++ delegating_pk.val
    | none => result ++ boolToArray false
  let result :=
    match maybe_receiving_pk with
    | some receiving_pk => result ++ boolToArray true ++ receiving_pk.val
    | none => result ++ boolToArray false
  result

/-- The spec's layout of the optional-key block: a one-byte flag, `0x01`
followed by the key bytes when the key is supplied, `0x00` alone otherwise. -/
def flagBlock : Option PublicKey → List Nat
  | some pk => [1] ++ pk.val
  | none => [0]

/-- The byte string a metadata option contributes to the absorbed stream:
the bytes themselves when present, nothing when absent. -/
def metadataBytes (m : Option (List Nat)) : List Nat :=
  m.getD []

/-- The bytes absorbed for a point list by `chain_points`: the concatenation
of the compressed forms in order. -/
def pointsBytes (ps : List PointBytes) : List Nat :=
  ps.foldl (fun acc p => acc ++ p.val) []

/-- A point of the prime-order subgroup, modelled by its discrete logarithm
with respect to `G` (an exponent modulo `q`).
Modelled from the spec: the backend is "an opaque provider of scalar/point
arithmetic over a prime-order group", which is cyclic of order `q`. -/
abbrev KemPoint := Nat

/-- The subgroup generator `G`, exponent `1`. -/
def kemG : KemPoint := 1

/-- Point addition in the exponent model. -/
def kemAdd (a b : KemPoint) : KemPoint :=
  (a + b) % secp_q

/-- Scalar multiplication `P · s` in the exponent model. -/
def kemMul (P : KemPoint) (s : Nat) : KemPoint :=
  P * s % secp_q

/-- A fixed injective byte encoding of a KEM point, standing in for the
compressed SEC1 form when a point is absorbed or fed to the KDF. -/
def kemPointBytes (P : KemPoint) : PointBytes :=
  ⟨2 :: beBytes 32 P, by simp [beBytes, List.length_append]⟩

/-- `PublicKey::from_secret_key` (`keys.rs`).
Modelled from the spec: `PublicKey::from_secret_key(sk) = G · sk`. -/
def PublicKey.from_secret_key (sk : Nat) : KemPoint :=
  kemMul kemG sk

/-- A numeric reduction of the idealized digest stream to a scalar in `[0, q)`.
Modelled from the spec: `finalize` reduces the 32-byte digest modulo `q`;
composed here with the injective stream model of the digest. -/
def scalarOfStream (l : ModelScalar) : Nat :=
  (l.foldl (fun a b => a * 257 + (b + 1)) 0) % secp_q

/-- `Capsule` (`capsule.rs`).
Modelled from the spec: the KEM header `(E, V, s)`. -/
structure Capsule where
  pointE : KemPoint
  pointV : KemPoint
  signature : Nat
deriving DecidableEq, Repr

/-- The DEM ciphertext.
Modelled from the spec: the AEAD is "a keyed authenticated encryption oracle";
idealized as the pair of the key and the plaintext, so that decryption
succeeds exactly under the same key. -/
structure DemCiphertext where
  key : List Nat
  body : List Nat
deriving DecidableEq, Repr

/-- DEM key derivation.
Modelled from the spec: the key is derived (injectively, via HKDF) from the
compressed bytes of the capsule's shared-secret point. -/
def demKDF (S : KemPoint) : List Nat :=
  (kemPointBytes S).val

/-- The AEAD encryption oracle. -/
def demEncrypt (key plaintext : List Nat) : DemCiphertext :=
  ⟨key, plaintext⟩

/-- The AEAD decryption oracle: succeeds exactly under the encryption key. -/
def demDecrypt (key : List Nat) (ct : DemCiphertext) : Option (List Nat) :=
  if ct.key = key then some ct.body else none

/-- `encrypt` (`pre.rs`), with the two random nonzero scalars `r`, `u` passed
explicitly. Modelled from the spec (§4.5): `E = G·r`, `V = G·u`,
`h = H_CAPSULE_POINTS(E, V)`, `s = u + r·h`, shared point
`S = delegating_pk · (r + u)`, DEM key from `S`. -/
def encrypt (delegating_pk : KemPoint) (plaintext : List Nat) (r u : Nat) :
    Capsule × DemCiphertext :=
  let pointE := kemMul kemG r
  let pointV := kemMul kemG u
  let h := scalarOfStream (hash_capsule_points (kemPointBytes pointE) (kemPointBytes pointV))
  let s := (u + r * h) % secp_q
  let sharedPoint := kemMul delegating_pk ((r + u) % secp_q)
  (⟨pointE, pointV, s⟩, demEncrypt (demKDF sharedPoint) plaintext)

/-- `decrypt_original` (`pre.rs`).
Modelled from the spec (§4.6): recompute `S = (E + V) · sk` and derive the
DEM key. -/
def decrypt_original (sk : Nat) (capsule : Capsule) (ct : DemCiphertext) :
    Option (List Nat) :=
  let sharedPoint := kemMul (kemAdd capsule.pointE capsule.pointV) sk
  demDecrypt (demKDF sharedPoint) ct

/-! ### Byte-array lemmas -/

theorem beToNat_append_one (l : List Nat) (b : Nat) :
    beToNat (l ++ [b]) = beToNat l * 256 + b := by
  simp [beToNat, List.foldl_append]

theorem beBytes_length (k n : Nat) : (beBytes k n).length = k := by
  induction k generalizing n with
  | zero => simp [beBytes]
  | succ k ih => simp [beBytes, ih]

theorem beBytes_lt256 (k n : Nat) : ∀ b ∈ beBytes k n, b < 256 := by
  induction k generalizing n with
  | zero => simp [beBytes]
  | succ k ih =>
    intro b hb
    rcases List.mem_append.mp hb with h | h
    · exact ih _ b h
    · simp at h
      omega

theorem beToNat_beBytes (k n : Nat) : beToNat (beBytes k n) = n % 256 ^ k := by
  induction k generalizing n with
  | zero => simp [beBytes, beToNat, Nat.mod_one]
  | succ k ih =>
    rw [beBytes, beToNat_append_one, ih, pow_succ', Nat.mod_mul]
    ring

theorem beBytes_beToNat (l : List Nat) (h : ∀ b ∈ l, b < 256) :
    beBytes l.length (beToNat l) = l := by
  induction l using List.reverseRecOn with
  | nil => simp [beBytes, beToNat]
  | append_singleton xs b ih =>
    have hb : b < 256 := h b (by simp)
    have h1 : (beToNat xs * 256 + b) / 256 = beToNat xs := by omega
    have h2 : (beToNat xs * 256 + b) % 256 = b := by omega
    have hxs : ∀ x ∈ xs, x < 256 := fun x hx => h x (by simp [hx])
    simp only [List.length_append, List.length_singleton, beToNat_append_one, beBytes,
      h1, h2, ih hxs]

theorem powMod_lt (fuel b e m : Nat) (hm : 0 < m) : powMod fuel b e m < m := by
  induction fuel generalizing b e with
  | zero => simpa [powMod] using Nat.mod_lt 1 hm
  | succ f ih =>
    simp only [powMod]
    split
    · exact Nat.mod_lt 1 hm
    · split
      · exact Nat.mod_lt _ hm
      · exact ih _ _

/-! ### Absorbed-stream lemmas for the scalar digest -/

theorem pointsBytes_foldl (ps : List PointBytes) (acc : List Nat) :
    ps.foldl (fun a p => a ++ p.val) acc = acc ++ pointsBytes ps := by
  induction ps generalizing acc with
  | nil => simp [pointsBytes]
  | cons p ps ih =>
    show List.foldl _ (acc ++ p.val) ps = acc ++ pointsBytes (p :: ps)
    rw [ih]
    show acc ++ p.val ++ pointsBytes ps = acc ++ List.foldl _ ([] ++ p.val) ps
    rw [ih]
    simp [List.append_assoc]

theorem pointsBytes_cons (p : PointBytes) (ps : List PointBytes) :
    pointsBytes (p :: ps) = p.val ++ pointsBytes ps := by
  show List.foldl _ ([] ++ p.val) ps = p.val ++ pointsBytes ps
  rw [pointsBytes_foldl]
  simp

theorem chain_points_absorbed (d : ScalarDigest) (ps : List PointBytes) :
    (d.chain_points ps).absorbed = d.absorbed ++ pointsBytes ps := by
  induction ps generalizing d with
  | nil => simp [ScalarDigest.chain_points, pointsBytes]
  | cons p ps ih =>
    show (ScalarDigest.chain_points (d.chain_point p) ps).absorbed = _
    rw [ih, pointsBytes_cons]
    simp [ScalarDigest.chain_point, ScalarDigest.chain_bytes, List.append_assoc]

theorem hash_to_cfrag_verification_absorbed (ps : List PointBytes)
    (m : Option (List Nat)) :
    hash_to_cfrag_verification ps m =
      u32be dstCfragVerification.length ++ dstCfragVerification ++
        (pointsBytes ps ++ metadataBytes m) := by
  cases m <;>
    simp [hash_to_cfrag_verification, ScalarDigest.finalize, ScalarDigest.chain_bytes,
      ScalarDigest.new_with_dst, chain_points_absorbed, metadataBytes, List.append_assoc]

/-! ### Claim theorems: hashing layer -/

/-- C5: each of the four scalar-producing hash functions absorbs, before any
caller-supplied data, exactly its (length-prefixed) ASCII domain separation
tag — `POLYNOMIAL_ARG`, `SHARED_SECRET`, `CAPSULE_POINTS`,
`CFRAG_VERIFICATION` — and then the caller-supplied fields in argument
order. -/
theorem hash_dst_first :
    (∀ a b c : PointBytes, ∀ kid : KeyFragID,
      hash_to_polynomial_arg a b c kid =
        u32be dstPolynomialArg.length ++ dstPolynomialArg ++
          (a.val ++ b.val ++ c.val ++ kid.val))
    ∧ (∀ a b c : PointBytes,
      hash_to_shared_secret a b c =
        u32be dstSharedSecret.length ++ dstSharedSecret ++ (a.val ++ b.val ++ c.val))
    ∧ (∀ a b : PointBytes,
      hash_capsule_points a b =
        u32be dstCapsulePoints.length ++ dstCapsulePoints ++ (a.val ++ b.val))
    ∧ (∀ ps : List PointBytes, ∀ m : Option (List Nat),
      hash_to_cfrag_verification ps m =
        u32be dstCfragVerification.length ++ dstCfragVerification ++
          (pointsBytes ps ++ metadataBytes m)) := by
  refine ⟨?_, ?_, ?_, ?_⟩
  · intro a b c kid
    simp [hash_to_polynomial_arg, ScalarDigest.new_with_dst, ScalarDigest.chain_point,
      ScalarDigest.chain_bytes, ScalarDigest.finalize, List.append_assoc]
  · intro a b c
    simp [hash_to_shared_secret, ScalarDigest.new_with_dst, ScalarDigest.chain_point,
      ScalarDigest.chain_bytes, ScalarDigest.finalize, List.append_assoc]
  · intro a b
    simp [hash_capsule_points, ScalarDigest.new_with_dst, ScalarDigest.chain_point,
      ScalarDigest.chain_bytes, ScalarDigest.finalize, List.append_assoc]
  · intro ps m
    exact hash_to_cfrag_verification_absorbed ps m

/-- C6: `hash_to_cfrag_verification` absorbs the metadata bytes after the
points exactly when metadata is present, and absorbs nothing extra when it is
absent. -/
theorem cfrag_hash_metadata_absorption (ps : List PointBytes) (m : List Nat) :
    hash_to_cfrag_verification ps (some m) = hash_to_cfrag_verification ps none ++ m
    ∧ hash_to_cfrag_verification ps none =
        u32be dstCfragVerification.length ++ dstCfragVerification ++ pointsBytes ps := by
  constructor <;>
    simp [hash_to_cfrag_verification_absorbed, metadataBytes, List.append_assoc]

/-- C9: absent metadata and present-but-empty metadata are absorbed
identically, so the two challenge scalars coincide for every point list. -/
theorem cfrag_hash_none_eq_some_nil (ps : List PointBytes) :
    hash_to_cfrag_verification ps none = hash_to_cfrag_verification ps (some []) := by
  simp [hash_to_cfrag_verification_absorbed, metadataBytes]

/-- C1 counterexample: the claim asserts that any two distinct metadata
options, including absent versus present-but-empty, yield different challenge
scalars; but at the concrete point list `[]`, absent metadata and empty
metadata yield the same scalar. -/
theorem cfrag_hash_absent_eq_empty :
    hash_to_cfrag_verification [] none = hash_to_cfrag_verification [] (some []) := by
  decide

/-- C1 (amended): for every point list, two metadata options that differ as
byte strings — with absent metadata read as the empty byte string — yield
different challenge scalars; absent and present-but-empty coincide. -/
theorem cfrag_hash_metadata_binding (ps : List PointBytes)
    (m1 m2 : Option (List Nat)) (hne : metadataBytes m1 ≠ metadataBytes m2) :
    hash_to_cfrag_verification ps m1 ≠ hash_to_cfrag_verification ps m2 := by
  intro he
  apply hne
  rw [hash_to_cfrag_verification_absorbed, hash_to_cfrag_verification_absorbed] at he
  simpa [List.append_assoc] using he

/-- C1 witness: concrete distinct metadata options produce distinct challenge
scalars. -/
theorem cfrag_hash_metadata_binding_witness :
    metadataBytes none ≠ metadataBytes (some [0])
    ∧ hash_to_cfrag_verification [] none ≠ hash_to_cfrag_verification [] (some [0]) :=
  ⟨by decide, cfrag_hash_metadata_binding [] none (some [0]) (by decide)⟩

/-! ### Claim theorems: serialization -/

/-- C3: for a 32-byte array, `CurveScalar::from_array` succeeds exactly when
the bytes, read big-endian, are below the field order `q`; on success the
scalar equals that integer, otherwise the error is `ConstructionFailure`. -/
theorem scalar_from_array_exact (arr : List Nat) (hlen : arr.length = 32) :
    match CurveScalar.from_array arr with
    | .ok s => beToNat arr < secp_q ∧ s.val = beToNat arr
    | .error e => secp_q ≤ beToNat arr ∧ e = .ConstructionFailure := by
  by_cases h : beToNat arr < secp_q
  · simp [CurveScalar.from_array, h]
  · simp [CurveScalar.from_array, h]
    omega

/-- C3 witness: the all-zero 32-byte array decodes to the scalar zero. -/
theorem scalar_from_array_exact_witness :
    (List.replicate 32 0).length = 32
    ∧ (match CurveScalar.from_array (List.replicate 32 0) with
       | .ok s => beToNat (List.replicate 32 0) < secp_q ∧ s.val = beToNat (List.replicate 32 0)
       | .error e => secp_q ≤ beToNat (List.replicate 32 0) ∧ e = .ConstructionFailure) :=
  ⟨by decide, scalar_from_array_exact (List.replicate 32 0) (by decide)⟩

/-- Inversion of a successful `from_compressed_array`: the checks the decoder
performed, read off the success hypothesis. -/
theorem from_compressed_array_some (arr : List Nat) (P : CurvePoint)
    (h : CurvePoint.from_compressed_array arr = some P) :
    ∃ tag rest y, arr = tag :: rest ∧ (tag = 2 ∨ tag = 3)
      ∧ beToNat rest < secp_p
      ∧ P = .affine (beToNat rest) y
      ∧ y < secp_p
      ∧ y * y % secp_p = (beToNat rest ^ 3 + 7) % secp_p
      ∧ y % 2 = tag % 2 := by
  cases arr with
  | nil => simp [CurvePoint.from_compressed_array] at h
  | cons tag rest =>
    have hp : (0 : Nat) < secp_p := by norm_num [secp_p]
    simp only [CurvePoint.from_compressed_array] at h
    split at h
    · split at h
      · split at h
        · split at h
          · rename_i htag hx hpar hok
            exact ⟨tag, rest, _, rfl, htag, hx, (Option.some.inj h).symm,
              powMod_lt _ _ _ _ hp, hok.1, hok.2⟩
          · exact absurd h (by simp)
        · split at h
          · rename_i htag hx hpar hok
            exact ⟨tag, rest, _, rfl, htag, hx, (Option.some.inj h).symm,
              Nat.mod_lt _ hp, hok.1, hok.2⟩
          · exact absurd h (by simp)
      · exact absurd h (by simp)
    · exact absurd h (by simp)

/-- C2: for every 33-byte array, `CurvePoint::from_array` returns `Ok` only
for a valid SEC1 compressed (`0x02`/`0x03`-prefixed) encoding of a
non-identity curve point, and every failure is a `ConstructionFailure`; the
identity, whose SEC1 encoding is the single byte `0x00`, is never decoded. -/
theorem point_from_array_sound (arr : List Nat) (hlen : arr.length = 33)
    (hbytes : ∀ b ∈ arr, b < 256) : PointDecodeSound arr := by
  unfold PointDecodeSound CurvePoint.from_array
  cases hfc : CurvePoint.from_compressed_array arr with
  | none => rfl
  | some P =>
    obtain ⟨tag, rest, y, harr, htag, hx, hP, hylt, hcurve, hpar⟩ :=
      from_compressed_array_some arr P hfc
    subst harr hP
    have hrest : rest.length = 32 := by simpa using hlen
    have hrb : ∀ b ∈ rest, b < 256 := fun b hb => hbytes b (by simp [hb])
    refine ⟨⟨beToNat rest, y, rfl, hx, hylt, hcurve, ?_⟩, by simp⟩
    have htageq : 2 + y % 2 = tag := by rcases htag with h2 | h3 <;> omega
    rw [htageq, ← hrest, beBytes_beToNat rest hrb]

set_option maxRecDepth 10000 in
/-- C2 witness: the compressed encoding of the secp256k1 generator is a
33-byte array of bytes on which the soundness statement is discharged. -/
theorem point_from_array_sound_witness :
    (2 :: beBytes 32 secpGx).length = 33
    ∧ (∀ b ∈ 2 :: beBytes 32 secpGx, b < 256)
    ∧ PointDecodeSound (2 :: beBytes 32 secpGx) :=
  ⟨by decide, by decide, point_from_array_sound _ (by decide) (by decide)⟩

/-- C7 counterexample: the round-trip claim includes the identity point, but
serializing the identity yields no byte array at all (`to_compressed_array`
panics on the 1-byte SEC1 identity encoding), so
`deserialize(serialize(identity))` cannot return `Ok(identity)`. -/
theorem point_roundtrip_identity_fails :
    point_roundtrip CurvePoint.identity = none := by
  rfl

/-- C7 (amended): round-trip holds for every scalar; for points, every
successfully deserialized point serializes back to exactly the bytes it was
read from (so `deserialize ∘ serialize` is the identity on all deserializable
points); the identity point is excluded, since serializing it fails. -/
theorem serialization_roundtrip_amended :
    (∀ s : CurveScalar, CurveScalar.from_array (CurveScalar.to_array s) = .ok s)
    ∧ (∀ (arr : List Nat) (P : CurvePoint), arr.length = 33 → (∀ b ∈ arr, b < 256) →
        CurvePoint.from_array arr = .ok P → CurvePoint.to_array_opt P = some arr) := by
  constructor
  · intro s
    have h : beToNat (beBytes 32 s.val) = s.val := by
      rw [beToNat_beBytes]
      exact Nat.mod_eq_of_lt (lt_trans s.prop (by norm_num [secp_q]))
    simp only [CurveScalar.from_array, CurveScalar.to_array, h, s.prop, dif_pos]
  · intro arr P hlen hbytes hok
    have hfc : CurvePoint.from_compressed_array arr = some P := by
      unfold CurvePoint.from_array at hok
      cases h : CurvePoint.from_compressed_array arr with
      | none => rw [h] at hok; exact absurd hok (by simp)
      | some Q => rw [h] at hok; rw [Except.ok.inj hok]
    obtain ⟨tag, rest, y, harr, htag, hx, hP, hylt, hcurve, hpar⟩ :=
      from_compressed_array_some arr P hfc
    subst harr hP
    have hrest : rest.length = 32 := by simpa using hlen
    have htageq : 2 + y % 2 = tag := by rcases htag with h2 | h3 <;> omega
    have hbb : beBytes 32 (beToNat rest) = rest := by
      rw [← hrest]
      exact beBytes_beToNat rest (fun b hb => hbytes b (by simp [hb]))
    simp [CurvePoint.to_array_opt, CurvePoint.to_compressed_array,
      CurvePoint.to_encoded_point_bytes, beBytes_length, htageq, hbb, hrest]

set_option maxRecDepth 10000 in
/-- C7 witness: the generator's compressed bytes deserialize to the generator
point, which serializes back to the same bytes. -/
theorem serialization_roundtrip_amended_witness :
    CurvePoint.from_array (2 :: beBytes 32 secpGx) = .ok (.affine secpGx secpGy)
    ∧ CurvePoint.to_array_opt (.affine secpGx secpGy) = some (2 :: beBytes 32 secpGx) := by
  have hdec : CurvePoint.from_array (2 :: beBytes 32 secpGx) = .ok (.affine secpGx secpGy) := by
    decide
  exact ⟨hdec, serialization_roundtrip_amended.2 _ _ (by decide) (by decide) hdec⟩

/-- C10: serialization of a `CurvePoint` is not total at the identity: the
identity's SEC1 encoding is the single byte `0x00`, so the 33-byte
`GenericArray::from_slice` panics (modelled `none`); every affine point
serializes; serialization succeeds exactly for non-identity points. -/
theorem point_to_array_identity_partial :
    CurvePoint.to_encoded_point_bytes .identity = [0]
    ∧ CurvePoint.to_array_opt .identity = none
    ∧ (∀ P : CurvePoint, (CurvePoint.to_array_opt P).isSome ↔ P ≠ .identity) := by
  refine ⟨rfl, rfl, ?_⟩
  intro P
  cases P with
  | identity =>
    simp [CurvePoint.to_array_opt, CurvePoint.to_compressed_array,
      CurvePoint.to_encoded_point_bytes]
  | affine x y =>
    simp [CurvePoint.to_array_opt, CurvePoint.to_compressed_array,
      CurvePoint.to_encoded_point_bytes, beBytes_length]

/-! ### Claim theorems: PRE facade and layouts -/

/-- C4: `kfrag_signature_message` returns exactly
`kfrag_id ‖ commitment ‖ precursor ‖ flag_d ‖ (delegating_pk)? ‖ flag_r ‖
(receiving_pk)?`, with each flag one byte — `0x01` with the key bytes
following when the key is supplied, `0x00` alone when it is absent.
Component sizes (32/33/33 bytes) are carried by the argument types. -/
theorem kfrag_signature_message_layout (kfrag_id : KeyFragID)
    (commitment precursor : PointBytes)
    (maybe_delegating_pk maybe_receiving_pk : Option PublicKey) :
    kfrag_signature_message kfrag_id commitment precursor
        maybe_delegating_pk maybe_receiving_pk =
      kfrag_id.val ++ commitment.val ++ precursor.val ++
        flagBlock maybe_delegating_pk ++ flagBlock maybe_receiving_pk := by
  cases maybe_delegating_pk <;> cases maybe_receiving_pk <;>
    simp [kfrag_signature_message, flagBlock, boolToArray, List.append_assoc]

/-- C8: for every plaintext, secret key and encryption randomness, decrypting
with the matching secret key returns the plaintext:
`decrypt_original(sk, encrypt(from_secret_key(sk), p)) = p`. -/
theorem decrypt_original_roundtrip (sk r u : Nat) (p : List Nat) :
    decrypt_original sk (encrypt (PublicKey.from_secret_key sk) p r u).1
      (encrypt (PublicKey.from_secret_key sk) p r u).2 = some p := by
  have hS : kemMul (kemAdd (kemMul kemG r) (kemMul kemG u)) sk
      = kemMul (PublicKey.from_secret_key sk) ((r + u) % secp_q) := by
    simp only [kemMul, kemAdd, kemG, PublicKey.from_secret_key, one_mul]
    conv_lhs => rw [Nat.mul_mod]
    conv_rhs => rw [Nat.mul_mod]
    rw [Nat.mod_mod, Nat.mod_mod, ← Nat.add_mod, Nat.mul_comm]
    rw [Nat.mod_mod]
  simp only [encrypt, decrypt_original, demEncrypt, demDecrypt, hS, if_pos]
